import Mathlib

/-!
# Verification of the vite-plugin-formatjs coordination core

Shallow embedding of the coordination pipeline of the `vite-plugin-formatjs`
repository: path classification (`isMessageFile`), the content cache
(`src/src/utils/cache.ts`), the extraction stage (`extractMessages`,
`MessageExtractor.extractIncremental`, `extractMessage`), the compilation
stage (`findMessageFiles`, `compileMessageFile`, `compileMessages`), config
validation (`validateConfig`), and the debounce coordinator state machine of
the two plugin variants (`src/src/plugin.ts` and
`packages/plugin/src/plugin.ts`).

External collaborators (the `@formatjs/cli-lib` extract/compile functions,
`JSON.parse`, `crypto` hashes, `minimatch`, the filesystem and the wall
clock) are modelled as explicit oracle parameters; the Node `path` (posix)
helpers used by the code are modelled directly below.
-/

namespace VPF

/-! ## Models of the JavaScript string primitives used by the source -/

/-- Model of JavaScript `String.prototype.startsWith`. -/
def strStartsWith (s pre : String) : Bool :=
  pre.data.isPrefixOf s.data

/-- Model of JavaScript `String.prototype.endsWith`. -/
def strEndsWith (s suf : String) : Bool :=
  suf.data.isSuffixOf s.data

/-- Split a character list at every occurrence of `sep`. -/
def splitOnChar (sep : Char) : List Char → List (List Char)
  | [] => [[]]
  | c :: rest =>
    let r := splitOnChar sep rest
    if c = sep then [] :: r
    else
      match r with
      | [] => [[c]]
      | h :: t => (c :: h) :: t

/-- Model of JavaScript `String.prototype.split` with a one-character
separator (the source only splits on `"/"` and `"-"`). -/
def strSplitOn (sep : Char) (s : String) : List String :=
  (splitOnChar sep s.data).map String.mk

/-- Replace the first occurrence of `pat` by `repl` in a character list. -/
def replaceFirstChars (pat repl : List Char) : List Char → List Char
  | [] => []
  | c :: rest =>
    if pat.isPrefixOf (c :: rest) then repl ++ (c :: rest).drop pat.length
    else c :: replaceFirstChars pat repl rest

/-- Model of JavaScript `String.prototype.replace` with a string pattern:
replaces only the first occurrence (no occurrence leaves the string
unchanged). -/
def strReplaceFirst (s pat repl : String) : String :=
  String.mk (replaceFirstChars pat.data repl.data s.data)

/-- Numeric value of a decimal digit character. -/
def digitVal (c : Char) : Nat := c.toNat - '0'.toNat

/-- Decimal accumulation over a digit list. -/
def parseNatChars : List Char → Nat → Nat
  | [], acc => acc
  | c :: rest, acc => parseNatChars rest (acc * 10 + digitVal c)

/-- Model of JavaScript `parseInt(s, 10)` on all-digit strings (the only
strings the source applies it to: they passed a `[0-9]{13}` regex check). -/
def parseIntModel (s : String) : Nat := parseNatChars s.data 0

/-! ## Model of `node:path` (posix) helpers used by the source -/

/-- Segment resolution used by Node's `path.posix.normalize`: drops empty and
`.` segments, resolves `..` against preceding segments (at the root of an
absolute path a `..` is dropped; in a relative path it is kept). The
accumulator holds the already-resolved segments in reverse. -/
def resolveSegs (isAbs : Bool) : List String → List String → List String
  | acc, [] => acc.reverse
  | acc, seg :: rest =>
    if seg = "" || seg = "." then resolveSegs isAbs acc rest
    else if seg = ".." then
      match acc with
      | [] => if isAbs then resolveSegs isAbs [] rest else resolveSegs isAbs [".."] rest
      | top :: more =>
        if top = ".." then resolveSegs isAbs (".." :: top :: more) rest
        else resolveSegs isAbs more rest
    else resolveSegs isAbs (seg :: acc) rest

/-- Model of Node `path.normalize` (posix). Collapses duplicate separators and
resolves `.` / `..`; a trailing separator is not preserved (the plugin never
passes paths with trailing separators). -/
def pathNormalize (p : String) : String :=
  if p = "" then "."
  else
    let isAbs := strStartsWith p "/"
    let segs := resolveSegs isAbs [] (strSplitOn '/' p)
    let body := String.intercalate "/" segs
    let r := if isAbs then "/" ++ body else body
    if r = "" then "." else r

/-- Model of Node `path.basename` (posix): the last non-empty path segment. -/
def pathBasename (p : String) : String :=
  match ((strSplitOn '/' p).filter (fun s => s ≠ "")).getLast? with
  | some s => s
  | none => ""

/-- Model of Node `path.dirname` (posix) on separator-collapsed paths. -/
def pathDirname (p : String) : String :=
  let isAbs := strStartsWith p "/"
  match (strSplitOn '/' p).filter (fun s => s ≠ "") with
  | [] => if isAbs then "/" else "."
  | [_] => if isAbs then "/" else "."
  | segs => (if isAbs then "/" else "") ++ String.intercalate "/" segs.dropLast

/-- Model of Node `path.join` (posix) for two components. -/
def pathJoin (a b : String) : String :=
  if a = "" then pathNormalize b
  else if b = "" then pathNormalize a
  else pathNormalize (a ++ "/" ++ b)

/-! ## Configuration (`packages/plugin/src/core/config.ts` and
`packages/plugin/src/core/types.ts`) -/

/-- `ExtractOptions` of `packages/plugin/src/core/types.ts` (the fields the
modelled functions read). The source field `include` is called
`includePatterns` here because `include` is a Lean keyword; `none` models a
JavaScript `undefined` value. -/
structure ExtractOptions where
  includePatterns : Option (List String)
  ignore : Option (List String)
  outFile : Option String
deriving Repr, DecidableEq

/-- `CompileOptions` of `packages/plugin/src/core/types.ts`. -/
structure CompileOptions where
  inputDir : String
  outputDir : String
deriving Repr, DecidableEq

/-- `VitePluginFormatJSOptions` of `packages/plugin/src/core/types.ts`
(variant with top-level `debounceTime`), restricted to the fields read by the
modelled functions. -/
structure VitePluginFormatJSOptions where
  extract : ExtractOptions
  compile : CompileOptions
  debug : Bool
  autoExtract : Bool
  debounceTime : Int
  extractOnBuild : Bool
deriving Repr, DecidableEq

/-- JavaScript truthiness of an optional string: `undefined`/`null` and the
empty string are falsy. -/
def strFalsy : Option String → Bool
  | none => true
  | some s => s = ""

/-- `validateConfig` of `packages/plugin/src/core/config.ts`. Mirrors the
check order of the source; each failed check throws (`Except.error`). -/
def validateConfig (config : VitePluginFormatJSOptions) : Except String Unit :=
  if (match config.extract.includePatterns with
      | none => true
      | some inc => inc.isEmpty) then
    .error "extract.include 必须是非空数组"
  else if strFalsy config.extract.outFile then
    .error "extract.outFile 不能为空"
  else if config.compile.inputDir = "" then
    .error "compile.inputDir 不能为空"
  else if config.compile.outputDir = "" then
    .error "compile.outputDir 不能为空"
  else if config.debounceTime < 0 then
    .error "dev.debounceTime 必须大于等于 0"
  else
    .ok ()

/-- `true` iff an `Except` value is a success. -/
def exceptIsOk : Except ε α → Bool
  | .ok _ => true
  | .error _ => false

/-- The validity condition as the specification words it: a configuration
error is raised iff `include` is empty or missing, or `outFile` is empty, or
`inputDir` or `outputDir` is empty, or the debounce delay is negative. -/
def configInvalidSpec (config : VitePluginFormatJSOptions) : Prop :=
  config.extract.includePatterns = none ∨
  config.extract.includePatterns = some [] ∨
  config.extract.outFile = none ∨
  config.extract.outFile = some "" ∨
  config.compile.inputDir = "" ∨
  config.compile.outputDir = "" ∨
  config.debounceTime < 0

/-! ## Filesystem oracle

The coordinator reads directories and files through Node `fs`; JSON validity
of a file's content (`JSON.parse` succeeding) is an external fact about the
content string. Both are modelled as oracle fields: `none` models a rejected
promise (read error). -/

structure FS where
  readdir : String → Option (List String)
  readFile : String → Option String
  parsesAsJson : String → Bool

/-- Sequencing of a list of fallible actions, modelling `Promise.all` over
`map`: the batch fails iff some element fails (`Promise.all` rejects with the
first rejection). -/
def exceptTraverse (f : α → Except ε β) : List α → Except ε (List β)
  | [] => .ok []
  | x :: xs =>
    match f x with
    | .error e => .error e
    | .ok y =>
      match exceptTraverse f xs with
      | .error e => .error e
      | .ok ys => .ok (y :: ys)

/-- Outcome record of `compileMessageFile` in `src/src/core/compile.ts`
(`SingleCompileResult`). The wall-clock `duration` is an external quantity;
the model takes it as a parameter where needed and otherwise uses `0`. -/
structure SingleCompileResult where
  messageFile : String
  outFile : String
  duration : Nat
  success : Bool
deriving Repr, DecidableEq

/-- Batch outcome of `compileMessages` in `src/src/core/compile.ts`
(`CompileResult`). -/
structure CompileResult where
  results : List SingleCompileResult
  duration : Nat
  compiledCount : Nat
deriving Repr, DecidableEq

namespace Root

/-! Embedding of the root variant, `src/src/core/compile.ts`, whose options
type is `FormatJSPluginOptions` (`src/src/core/types.ts`, flat layout). -/

/-- The fields of the flat `FormatJSPluginOptions` read by the modelled
functions. The source field `include` is called `includePatterns` here
(`include` is a Lean keyword); `none` models JavaScript `undefined`. -/
structure FormatJSPluginOptions where
  includePatterns : Option (List String)
  ignore : Option (List String)
  outFile : Option String
  compileFolder : Option String
deriving Repr, DecidableEq

/-- `isMessageFile` of `src/src/core/compile.ts`: the guard
`if (!options.outFile) return false` returns `false` for a falsy `outFile`
— `undefined` (`none`) and the empty string alike; otherwise the file must
lie in `dirname(outFile)` by a string-prefix test on normalized paths, end
in `.json`, and not be the main message file itself. -/
def isMessageFile (filePath : String) (options : FormatJSPluginOptions) : Bool :=
  match options.outFile with
  | none => false
  | some outFile =>
    if outFile = "" then false else
    let messageDir := pathDirname outFile
    let normalizedFilePath := pathNormalize filePath
    let normalizedMessageDir := pathNormalize messageDir
    if ¬ strStartsWith normalizedFilePath normalizedMessageDir then false
    else
      let fileName := pathBasename filePath
      let mainMessageFile := pathBasename outFile
      strEndsWith fileName ".json" && fileName != mainMessageFile

/-- `findMessageFiles` of `src/src/core/compile.ts`: keeps directory entries
ending in `.json` whose name differs from `basename(outFile)` and whose
content reads and parses as JSON (read or parse failure silently skips the
entry); a `readdir` failure on the directory itself throws. The source reads
`options.outFile!` (non-null assertion); callers guarantee it is set, and the
model uses `getD ""` for that assertion. -/
def findMessageFiles (fs : FS) (messageDir : String)
    (options : FormatJSPluginOptions) : Except String (List String) :=
  match fs.readdir messageDir with
  | none => .error ("无法读取消息目录 " ++ messageDir)
  | some files =>
    .ok <| files.filterMap fun file =>
      if strEndsWith file ".json" && file != pathBasename (options.outFile.getD "") then
        let filePath := pathJoin messageDir file
        match fs.readFile filePath with
        | none => none
        | some content => if fs.parsesAsJson content then some filePath else none
      else none

/-- `generateOutputPath` of `src/src/core/compile.ts`: requires
`compileFolder` and joins it with the message file's basename. -/
def generateOutputPath (messageFile : String)
    (options : FormatJSPluginOptions) : Except String String :=
  match options.compileFolder with
  | none => .error "compileFolder 配置是必需的"
  | some folder => .ok (pathJoin folder (pathBasename messageFile))

/-- `compileMessageFile` of `src/src/core/compile.ts`. `fileExists` models
`fs.access` (false rejects); `compileFn` models the external
`@formatjs/cli-lib` `compile` call. There is no catch in this function: any
failure propagates as an error; on success the result always carries
`success := true`. -/
def compileMessageFile (fileExists : String → Bool)
    (compileFn : String → Except String String)
    (options : FormatJSPluginOptions) (messageFile : String) :
    Except String SingleCompileResult :=
  match generateOutputPath messageFile options with
  | .error e => .error e
  | .ok outFile =>
    if ¬ fileExists messageFile then .error ("ENOENT: " ++ messageFile)
    else
      match compileFn messageFile with
      | .error e => .error e
      | .ok _compiledContent =>
        .ok { messageFile := messageFile, outFile := outFile, duration := 0, success := true }

/-- `compileMessages` of `src/src/core/compile.ts`: requires `compileFolder`
and `outFile`, enumerates candidates with `findMessageFiles` over
`dirname(outFile)`, and compiles them with `Promise.all` over
`compileMessageFile`; the trailing catch rethrows, so one file's failure
fails the whole batch. -/
def compileMessages (fs : FS) (fileExists : String → Bool)
    (compileFn : String → Except String String)
    (options : FormatJSPluginOptions) : Except String CompileResult :=
  match options.compileFolder with
  | none => .error "compileFolder 配置是必需的"
  | some _ =>
    match options.outFile with
    | none => .error "outFile 配置是必需的，用于确定消息文件位置"
    | some outFile =>
      let messageDir := pathDirname outFile
      match findMessageFiles fs messageDir options with
      | .error e => .error e
      | .ok messageFiles =>
        if messageFiles.isEmpty then
          .ok { results := [], duration := 0, compiledCount := 0 }
        else
          match exceptTraverse (compileMessageFile fileExists compileFn options) messageFiles with
          | .error e => .error e
          | .ok results =>
            .ok { results := results, duration := 0,
                  compiledCount := (results.filter (fun r => r.success)).length }

end Root

namespace Pkg

/-! Embedding of the package variant, `packages/plugin/src/core/compile.ts`,
whose options type is the nested `VitePluginFormatJSOptions`. -/

/-- `isMessageFile` of `packages/plugin/src/core/compile.ts`: like the root
variant but the directory compared against is `compile.inputDir`; the guard
`if (!options.extract.outFile) return false` again returns `false` for both
`undefined` (`none`) and the empty string. -/
def isMessageFile (filePath : String) (options : VitePluginFormatJSOptions) : Bool :=
  match options.extract.outFile with
  | none => false
  | some outFile =>
    if outFile = "" then false else
    let messageDir := options.compile.inputDir
    let normalizedFilePath := pathNormalize filePath
    let normalizedMessageDir := pathNormalize messageDir
    if ¬ strStartsWith normalizedFilePath normalizedMessageDir then false
    else
      let fileName := pathBasename filePath
      let mainMessageFile := pathBasename outFile
      strEndsWith fileName ".json" && fileName != mainMessageFile

/-- `findMessageFiles` of `packages/plugin/src/core/compile.ts`: keeps
directory entries of `inputDir` ending in `.json` whose content reads and
parses as JSON; unlike the root variant there is no exclusion of
`basename(outFile)`. A `readdir` failure throws. -/
def findMessageFiles (fs : FS) (options : CompileOptions) :
    Except String (List String) :=
  match fs.readdir options.inputDir with
  | none => .error ("无法读取消息目录 " ++ options.inputDir)
  | some files =>
    .ok <| files.filterMap fun file =>
      if strEndsWith file ".json" then
        let filePath := pathJoin options.inputDir file
        match fs.readFile filePath with
        | none => none
        | some content => if fs.parsesAsJson content then some filePath else none
      else none

/-- `compileMessageFile` of `packages/plugin/src/core/compile.ts`: returns
the elapsed duration on success and `0` on any failure (existence check or
`compileAndWrite` failure), never throwing. `elapsed` models the external
wall clock difference of the success path. -/
def compileMessageFile (fileExists : String → Bool)
    (compileFn : String → Except String String) (elapsed : Nat)
    (options : CompileOptions) (messageFile : String) : Nat :=
  let _outFile := pathJoin options.outputDir (pathBasename messageFile)
  if ¬ fileExists messageFile then 0
  else
    match compileFn messageFile with
    | .error _ => 0
    | .ok _ => elapsed

/-- `compileMessages` of `packages/plugin/src/core/compile.ts`: enumerates
candidates with `findMessageFiles` and maps the raw external `compile` call
over them with `Promise.all`, then writes every output; the trailing catch
rethrows, so one file's compile failure fails the whole batch. Returns the
batch duration (external, modelled as `0`). -/
def compileMessages (fs : FS) (compileFn : String → Except String String)
    (options : CompileOptions) : Except String Nat :=
  match findMessageFiles fs options with
  | .error e => .error e
  | .ok files =>
    match exceptTraverse compileFn files with
    | .error e => .error e
    | .ok _results => .ok 0

end Pkg

/-! ## Content cache (`src/src/utils/cache.ts`)

The cache directory is modelled by its listing (the record files' names — the
files themselves are empty, the name encodes the record). `getOutFileHash`
(an md5 of the resolved `outFile` path, truncated to 8 hex characters) is an
external crypto call and is passed in as the `outFileHash` parameter;
`Date.now()` is passed in as `now`. -/

/-- `CacheRecord` of `src/src/utils/cache.ts`. -/
structure CacheRecord where
  hash : String
  timestamp : Nat
  outFile : String
deriving Repr, DecidableEq

/-- Decimal digit character (the `[0-9]` regex class). -/
def isDigitChar (c : Char) : Bool := '0' ≤ c && c ≤ '9'

/-- Lowercase hex character (the `[a-f0-9]` regex class). -/
def isHexChar (c : Char) : Bool := isDigitChar c || ('a' ≤ c && c ≤ 'f')

/-- `getCacheFileName` of `src/src/utils/cache.ts`:
`extract-<outFileHash>-<timestamp>-<contentHash prefix of 8>.cache`. -/
def getCacheFileName (outFileHash : String) (timestamp : Nat)
    (contentHash : String) : String :=
  "extract-" ++ outFileHash ++ "-" ++ toString timestamp ++ "-" ++
    contentHash.take 8 ++ ".cache"

/-- The cache-file-name regex of `findCache`:
`^extract-<outFileHash>-[0-9]\x7b13\x7d-[a-f0-9]\x7b8\x7d\.cache$`. -/
def matchesCacheName (outFileHash : String) (f : String) : Bool :=
  let pre := "extract-" ++ outFileHash ++ "-"
  if ¬ strStartsWith f pre then false
  else
    let rest := f.data.drop pre.data.length
    let ts := rest.take 13
    let rest2 := rest.drop 13
    decide (ts.length = 13) && ts.all isDigitChar &&
      (match rest2 with
       | '-' :: rest3 =>
         let ch := rest3.take 8
         decide (ch.length = 8) && ch.all isHexChar &&
           decide (rest3.drop 8 = ".cache".data)
       | _ => false)

/-- Ascending insertion into a sorted list (string comparison). -/
def insertSorted (x : String) : List String → List String
  | [] => [x]
  | y :: ys =>
    match compare x y with
    | .gt => y :: insertSorted x ys
    | _ => x :: y :: ys

/-- Model of JavaScript `Array.prototype.sort()` on strings: ascending
lexicographic order. -/
def sortStrings : List String → List String
  | [] => []
  | x :: xs => insertSorted x (sortStrings xs)

/-- `findCache` of `src/src/utils/cache.ts`: filters the cache directory
listing by the name regex, takes the lexicographically last name
(`sort().pop()`), strips `.cache` (`replace`), splits on `-` and reads
`parts[2]` (timestamp) and `parts[3]` (stored content-hash prefix). A
`readdir` failure (listing `none`) is caught and yields `none`. -/
def findCache (cacheDirListing : Option (List String)) (outFileHash : String)
    (outFile : String) : Option CacheRecord :=
  match cacheDirListing with
  | none => none
  | some files =>
    let cacheFiles := files.filter (matchesCacheName outFileHash)
    if cacheFiles.isEmpty then none
    else
      match (sortStrings cacheFiles).getLast? with
      | none => none
      | some latestFile =>
        let fileName := strReplaceFirst latestFile ".cache" ""
        let parts := strSplitOn '-' fileName
        match parts.get? 2, parts.get? 3 with
        | some timestamp, some contentHash =>
          if decide (parts.length ≥ 4) && timestamp != "" && contentHash != "" then
            some { hash := contentHash, timestamp := parseIntModel timestamp,
                   outFile := outFile }
          else none
        | _, _ => none

/-- `writeCache` of `src/src/utils/cache.ts` acting on the directory listing:
deletes every name starting with `extract-<outFileHash>-`, then creates the
new record name (the success path; cache write failures are swallowed by the
source and only degrade performance). -/
def writeCache (cacheDirListing : List String) (outFileHash : String)
    (now : Nat) (contentHash : String) : List String :=
  let kept := cacheDirListing.filter fun f =>
    ¬ strStartsWith f ("extract-" ++ outFileHash ++ "-")
  kept ++ [getCacheFileName outFileHash now contentHash]

/-- Observable effects of one `extractMessages` run
(`src/src/core/types.ts`, the extraction-stage variant with cache). -/
structure ExtractRunOutcome where
  isChanged : Bool
  wroteOutFile : Bool
  wroteCache : Bool
  cacheDirAfter : List String
deriving Repr, DecidableEq

/-- The cache-consulting tail of `extractMessages`
(`src/src/core/types.ts`): after the external `extract` call and the JSON
round-trip produced `formattedContent`, it hashes the content
(`hashHex` models `createHash('sha256')...digest('hex')`), looks up the
cache record for `outFile`, sets `isChanged` iff there is no record or the
record's `hash` field differs from `contentHash`, and writes the out file
and a fresh cache record only when changed. -/
def extractRunCache (hashHex : String → String) (outFileHash : String)
    (cacheDir : List String) (now : Nat) (formattedContent : String)
    (outFile : String) : ExtractRunOutcome :=
  let contentHash := hashHex formattedContent
  let cache := findCache (some cacheDir) outFileHash outFile
  let isChanged :=
    match cache with
    | none => true
    | some c => c.hash != contentHash
  if isChanged then
    { isChanged := true, wroteOutFile := true, wroteCache := true,
      cacheDirAfter := writeCache cacheDir outFileHash now contentHash }
  else
    { isChanged := false, wroteOutFile := false, wroteCache := false,
      cacheDirAfter := cacheDir }

/-! ## Message maps and the incremental merge
(`src/unnamed/part_012` `MessageExtractor`, `src/unnamed/part_020`
`extractMessage`) -/

/-- Message records (`Record<string, MessageDescriptor>`): the coordinator
treats descriptors as pass-through payload, modelled as an abstract `String`
payload keyed by message id; a record is its key-lookup function. -/
def Messages := String → Option String

/-- The empty record. -/
def emptyMessages : Messages := fun _ => none

/-- JavaScript object spread of `existing` then `newMessages` at the level
of key lookup: keys of `newMessages` win on collision, all other keys keep
their `existing` binding. -/
def spreadMerge (existing newMessages : Messages) : Messages :=
  fun key =>
    match newMessages key with
    | some v => some v
    | none => existing key

namespace Extractor

/-- `readExistingMessages` of `MessageExtractor` (src/unnamed/part_012): a
missing file, a read failure or a parse failure yields the empty record.
`onDisk` models `existsSync` + `readFile` + `JSON.parse` combined, `none`
being any of them failing. -/
def readExistingMessages (onDisk : String → Option Messages)
    (filePath : String) : Messages :=
  match onDisk filePath with
  | none => emptyMessages
  | some m => m

/-- `filterRelevantFiles` of `MessageExtractor`: with no `include` patterns
every file is relevant; otherwise files are mapped through
`relative(cwd, ·)` (modelled by `relFn`) and kept when some pattern matches
(`minimatchFn` models the external `minimatch`). -/
def filterRelevantFiles (includePatterns : List String)
    (relFn : String → String) (minimatchFn : String → String → Bool)
    (files : List String) : List String :=
  if includePatterns.isEmpty then files
  else (files.map relFn).filter fun file =>
    includePatterns.any fun pattern => minimatchFn file pattern

/-- Observable outcome of `MessageExtractor.extractIncremental`: the
returned message map, the processed-file count, and the write it performed
(`none` when it returned early or `outFile` is unset). -/
structure IncrementalOutcome where
  messages : Messages
  filesProcessed : Nat
  written : Option (String × Messages)

/-- `MessageExtractor.extractIncremental` (src/unnamed/part_012), success
path: empty input or no relevant file returns the empty record without
writing; otherwise the external `extract` runs over the relevant files
(`extractOracle`), the existing on-disk map is read, the new map is
spread-merged over it (new entries win), and the merged map is written to
`outFile` when set. -/
def extractIncremental (options : Root.FormatJSPluginOptions)
    (relFn : String → String) (minimatchFn : String → String → Bool)
    (extractOracle : List String → Messages)
    (onDisk : String → Option Messages)
    (changedFiles : List String) : IncrementalOutcome :=
  if changedFiles.isEmpty then
    { messages := emptyMessages, filesProcessed := 0, written := none }
  else
    let relevantFiles := filterRelevantFiles (options.includePatterns.getD [])
      relFn minimatchFn changedFiles
    if relevantFiles.isEmpty then
      { messages := emptyMessages, filesProcessed := 0, written := none }
    else
      let parsedNewMessages := extractOracle relevantFiles
      let existingMessages :=
        match options.outFile with
        | some f => readExistingMessages onDisk f
        | none => emptyMessages
      let finalMessages := spreadMerge existingMessages parsedNewMessages
      { messages := finalMessages,
        filesProcessed := relevantFiles.length,
        written := options.outFile.map fun f => (f, finalMessages) }

end Extractor

namespace Pkg

/-- `extractMessage` of the package extract module (src/unnamed/part_020):
runs the external `extract` over the given files, reads and parses the
existing `outFile` (a read or parse failure throws, as does the non-null
assertion on an unset `outFile`), spread-merges the new messages over the
existing ones (new entries win), and writes the merged map back to
`outFile`. Returns the file written and its content. -/
def extractMessage (extractOracle : List String → Messages)
    (readOutFile : String → Option Messages) (options : ExtractOptions)
    (files : List String) : Except String (String × Messages) :=
  let messages := extractOracle files
  match options.outFile with
  | none => .error "outFile is required"
  | some outFile =>
    match readOutFile outFile with
    | none => .error ("读取或解析消息文件失败: " ++ outFile)
    | some existingMessagesJson =>
      .ok (outFile, spreadMerge existingMessagesJson messages)

end Pkg

/-! ## Debounce coordinator state machines

The plugin closures hold three mutable variables: a timer handle, an
in-progress flag and a pending-path set. The model exposes them as a state
record together with two observations: `running`, the number of
`debouncedExtract` invocations past the single-flight guard that have not
finished, and `executions`, the list (in start order) of the pending-set
snapshots taken when each extraction run started (`debouncedExtract` reads
the pending set synchronously before its first await).

Events: `notify f` is `handleHotUpdate` taking the source-file branch for
`f` (the file matched the include patterns and, in the package variant,
`autoExtract` is on); `fire` is the scheduled timeout callback running — it
invokes `debouncedExtract`, whose guard returns immediately when
`inProgress` is set (a fired timer leaves a stale handle, observationally
equal to no timer, since `clearTimeout` on it is a no-op); `complete` is the
`finally` block of a running `debouncedExtract` finishing — it runs on
success and on failure alike because the `catch` only logs; `buildEnd` is
the build-end hook. -/

structure CoordState where
  timerScheduled : Bool
  inProgress : Bool
  pendingExtract : List String
  running : Nat
  executions : List (List String)
deriving Repr, DecidableEq

/-- The fresh closure state of `formatjs(...)`. -/
def initCoord : CoordState :=
  { timerScheduled := false, inProgress := false, pendingExtract := [],
    running := 0, executions := [] }

/-- JavaScript `Set.prototype.add`: append if not yet present. -/
def addPending (l : List String) (f : String) : List String :=
  if f ∈ l then l else l ++ [f]

inductive CoordEvent where
  | notify (file : String)
  | fire
  | complete
  | buildEnd
deriving Repr, DecidableEq

namespace PkgCoord

/-! Coordinator of `packages/plugin/src/plugin.ts`. -/

/-- The closure's `clear()`: cancels the timer, resets `inProgress`, empties
the pending set. -/
def clearFn (s : CoordState) : CoordState :=
  { s with timerScheduled := false, inProgress := false, pendingExtract := [] }

/-- One event step. `notify` is `clear(); pendingExtract.add(file);
timer = setTimeout(...)`. `fire` is the timeout invoking `debouncedExtract`
(`if (inProgress) return;` else snapshot `[...pendingExtract]` and run).
`complete` is `debouncedExtract`'s `finally`
(`inProgress = false; pendingExtract.clear()`). `buildEnd` is `clear()`. -/
def coordStep (s : CoordState) : CoordEvent → CoordState
  | .notify file =>
    let s := clearFn s
    { s with pendingExtract := addPending s.pendingExtract file,
             timerScheduled := true }
  | .fire =>
    if ¬ s.timerScheduled then s
    else
      let s := { s with timerScheduled := false }
      if s.inProgress then s
      else
        { s with inProgress := true, running := s.running + 1,
                 executions := s.executions ++ [s.pendingExtract] }
  | .complete =>
    if s.running = 0 then s
    else { s with running := s.running - 1, inProgress := false,
                  pendingExtract := [] }
  | .buildEnd => clearFn s

/-- Run a sequence of events. -/
def run (s : CoordState) (events : List CoordEvent) : CoordState :=
  events.foldl coordStep s

end PkgCoord

namespace RootCoord

/-! Coordinator of `src/src/plugin.ts` (the variant whose `handleHotUpdate`
accumulates `pendingFiles` without clearing and whose `buildEnd` only clears
the timer). -/

/-- One event step. `notify` is `pendingFiles.add(file);
if (debounceTimer) clearTimeout(debounceTimer); debounceTimer =
setTimeout(...)`. `fire` and `complete` are as in the package variant
(`debouncedExtract` has the same guard and `finally`); `buildEnd` only
cancels the timer. -/
def coordStep (s : CoordState) : CoordEvent → CoordState
  | .notify file =>
    { s with pendingExtract := addPending s.pendingExtract file,
             timerScheduled := true }
  | .fire =>
    if ¬ s.timerScheduled then s
    else
      let s := { s with timerScheduled := false }
      if s.inProgress then s
      else
        { s with inProgress := true, running := s.running + 1,
                 executions := s.executions ++ [s.pendingExtract] }
  | .complete =>
    if s.running = 0 then s
    else { s with running := s.running - 1, inProgress := false,
                  pendingExtract := [] }
  | .buildEnd => { s with timerScheduled := false }

/-- Run a sequence of events. -/
def run (s : CoordState) (events : List CoordEvent) : CoordState :=
  events.foldl coordStep s

end RootCoord

/-! ## Shared sample data for concrete instances -/

/-- The default-shaped package configuration used for concrete instances. -/
def sampleConfig : VitePluginFormatJSOptions :=
  { extract := { includePatterns := some ["src/**/*.tsx"], ignore := none,
                 outFile := some "src/i18n/lang/en.json" },
    compile := { inputDir := "src/i18n/lang",
                 outputDir := "src/i18n/compiled-lang" },
    debug := false, autoExtract := true, debounceTime := 300,
    extractOnBuild := false }

/-- The matching flat (root-variant) options. -/
def sampleRootOptions : Root.FormatJSPluginOptions :=
  { includePatterns := some ["src/**/*.tsx"], ignore := none,
    outFile := some "src/i18n/lang/en.json",
    compileFolder := some "src/i18n/compiled-lang" }

/-! ## Theorems -/

/-- C8: for every resolved configuration, `validateConfig` (invoked by
`formatjs` at plugin construction, before any file is touched) raises a
configuration error if and only if the include array is empty or missing, or
`outFile` is empty or missing, or `inputDir` or `outputDir` is empty, or the
debounce delay is negative. -/
theorem validateConfig_error_iff (config : VitePluginFormatJSOptions) :
    exceptIsOk (validateConfig config) = false ↔ configInvalidSpec config := by
  obtain ⟨⟨inc, ign, out⟩, ⟨inDir, outDir⟩, dbg, auto, dt, eob⟩ := config
  simp only [validateConfig, configInvalidSpec, exceptIsOk, strFalsy]
  cases inc with
  | none => simp
  | some l =>
    cases out with
    | none => cases l <;> simp
    | some s =>
      cases l <;> split_ifs <;> simp_all

/-- C10: for every path, when no `outFile` is configured the
translation-message-file classifier returns `false` immediately (both
variants), so no file is routed to the compilation stage. -/
theorem isMessageFile_no_outFile
    (filePath : String) (ro : Root.FormatJSPluginOptions)
    (po : VitePluginFormatJSOptions)
    (hr : ro.outFile = none) (hp : po.extract.outFile = none) :
    Root.isMessageFile filePath ro = false ∧
    Pkg.isMessageFile filePath po = false := by
  constructor
  · simp [Root.isMessageFile, hr]
  · simp [Pkg.isMessageFile, hp]

/-- Witness for C10 at a concrete path and configurations. -/
theorem isMessageFile_no_outFile_witness :
    Root.isMessageFile "src/i18n/lang/zh.json"
      { includePatterns := none, ignore := none, outFile := none,
        compileFolder := none } = false ∧
    Pkg.isMessageFile "src/i18n/lang/zh.json"
      { extract := { includePatterns := none, ignore := none, outFile := none },
        compile := { inputDir := "src/i18n/lang", outputDir := "out" },
        debug := false, autoExtract := true, debounceTime := 300,
        extractOnBuild := false } = false :=
  isMessageFile_no_outFile "src/i18n/lang/zh.json" _ _ rfl rfl

/-- C5 counterexample: a `.json` file in a proper subdirectory of
`inputDir` (package variant) and of `dirname(outFile)` (root variant) IS
classified as a translation message file, because the directory comparison
is `startsWith` on the normalized paths, not an exact directory match. The
claim states such a file is never classified. -/
theorem nested_json_classified_cex :
    Pkg.isMessageFile "src/i18n/lang/nested/zh.json" sampleConfig = true ∧
    Root.isMessageFile "src/i18n/lang/nested/zh.json" sampleRootOptions = true := by
  decide

/-- C5 (amended): the canonical `outFile` itself is never classified as a
translation message file (its basename equals the main message file's); but
when a non-empty `outFile` is configured, the directory comparison is a
string-prefix test on normalized paths, so any `.json` file whose normalized
path extends the normalized message directory — including files in proper
subdirectories of `inputDir` — is classified as a translation message file
whenever its basename differs from `outFile`'s. -/
theorem isMessageFile_boundaries :
    (∀ (options : VitePluginFormatJSOptions) (o : String),
      options.extract.outFile = some o → Pkg.isMessageFile o options = false) ∧
    (∀ (options : Root.FormatJSPluginOptions) (o : String),
      options.outFile = some o → Root.isMessageFile o options = false) ∧
    (∀ (options : VitePluginFormatJSOptions) (o f : String),
      options.extract.outFile = some o → o ≠ "" →
      strStartsWith (pathNormalize f) (pathNormalize options.compile.inputDir) = true →
      strEndsWith (pathBasename f) ".json" = true →
      pathBasename f ≠ pathBasename o →
      Pkg.isMessageFile f options = true) := by
  refine ⟨?_, ?_, ?_⟩
  · intro options o h
    simp only [Pkg.isMessageFile, h]
    split_ifs <;> simp
  · intro options o h
    simp only [Root.isMessageFile, h]
    split_ifs <;> simp
  · intro options o f h hne hdir hjson hbase
    simp [Pkg.isMessageFile, h, hne, hdir, hjson, hbase]

/-- Witness for C5's amended theorem at concrete inputs. -/
theorem isMessageFile_boundaries_witness :
    Pkg.isMessageFile "src/i18n/lang/en.json" sampleConfig = false ∧
    Root.isMessageFile "src/i18n/lang/en.json" sampleRootOptions = false ∧
    Pkg.isMessageFile "src/i18n/lang/zh.json" sampleConfig = true :=
  ⟨isMessageFile_boundaries.1 sampleConfig "src/i18n/lang/en.json" rfl,
   isMessageFile_boundaries.2.1 sampleRootOptions "src/i18n/lang/en.json" rfl,
   isMessageFile_boundaries.2.2 sampleConfig "src/i18n/lang/en.json"
     "src/i18n/lang/zh.json" rfl (by decide) (by decide) (by decide) (by decide)⟩

/-- C3: evaluation at the failing input. Two consecutive extraction runs
over byte-identical serialized content: the first run (empty cache) writes
and records a cache file whose name stores only the first 8 characters of
the sha256 content hash; the second run finds exactly that record, yet
`extractMessages` compares the stored 8-character prefix against the full
64-character hash, so they never compare equal: the second run reports
`isChanged = true` and performs the write again, contrary to the claim (and
to the intent shown by the repository's own tests, which stub `findCache`
with the full hash and expect `isChanged = false` and no write). -/
theorem cache_identical_rerun_rewrites :
    (let hashHex := fun (_ : String) =>
      "6a1b2c3d4e5f60718293a4b5c6d7e8f90123456789abcdef0123456789abcdef"
     let run1 := extractRunCache hashHex "0a1b2c3d" [] 1703123456789
       "FORMATTED-CONTENT" "src/i18n/lang/en.json"
     let run2 := extractRunCache hashHex "0a1b2c3d" run1.cacheDirAfter
       1703123456790 "FORMATTED-CONTENT" "src/i18n/lang/en.json"
     run1.cacheDirAfter = ["extract-0a1b2c3d-1703123456789-6a1b2c3d.cache"] ∧
     findCache (some run1.cacheDirAfter) "0a1b2c3d" "src/i18n/lang/en.json" =
       some { hash := "6a1b2c3d", timestamp := 1703123456789,
              outFile := "src/i18n/lang/en.json" } ∧
     run2.isChanged = true ∧ run2.wroteOutFile = true ∧
     run2.wroteCache = true) := by
  decide

/-- C1 counterexample: two `notify` calls inside one debounce window
(`notify('src/A.tsx')` then `notify('src/B.tsx')` before the timer fires),
then the timer fires and the run completes. Exactly one extraction executes,
but the pending set handed to it is `\x7bB\x7d`, not the union
`\x7bA, B\x7d`: the package plugin's source branch calls `clear()` before
adding each file, wiping the previously pending paths. -/
theorem debounce_union_cex :
    (PkgCoord.run initCoord
      [.notify "src/A.tsx", .notify "src/B.tsx", .fire, .complete]).executions
      = [["src/B.tsx"]] ∧
    ¬ "src/A.tsx" ∈ (PkgCoord.run initCoord
      [.notify "src/A.tsx", .notify "src/B.tsx", .fire, .complete]).executions.flatten := by
  decide

/-- After a nonempty burst of notifications, the package coordinator holds a
scheduled timer, no run, and exactly the last notified path pending. -/
theorem pkgCoord_run_notifies (p : String) (ps : List String) (s : CoordState) :
    PkgCoord.run s ((p :: ps).map CoordEvent.notify) =
      { timerScheduled := true, inProgress := false,
        pendingExtract := [(p :: ps).getLast (List.cons_ne_nil p ps)],
        running := s.running, executions := s.executions } := by
  induction ps generalizing p s with
  | nil =>
    simp [PkgCoord.run, PkgCoord.coordStep, PkgCoord.clearFn, addPending]
  | cons q qs ih =>
    have step : PkgCoord.coordStep s (CoordEvent.notify p) =
        { timerScheduled := true, inProgress := false, pendingExtract := [p],
          running := s.running, executions := s.executions } := by
      simp [PkgCoord.coordStep, PkgCoord.clearFn, addPending]
    calc PkgCoord.run s ((p :: q :: qs).map CoordEvent.notify)
        = PkgCoord.run (PkgCoord.coordStep s (CoordEvent.notify p))
            ((q :: qs).map CoordEvent.notify) := rfl
      _ = _ := by rw [step, ih q]; simp

/-- After a nonempty burst of notifications, the root coordinator holds a
scheduled timer and the accumulated union of notified paths pending. -/
theorem rootCoord_run_notifies (p : String) (ps : List String) (s : CoordState) :
    RootCoord.run s ((p :: ps).map CoordEvent.notify) =
      { timerScheduled := true, inProgress := s.inProgress,
        pendingExtract := (p :: ps).foldl addPending s.pendingExtract,
        running := s.running, executions := s.executions } := by
  induction ps generalizing p s with
  | nil => simp [RootCoord.run, RootCoord.coordStep]
  | cons q qs ih =>
    calc RootCoord.run s ((p :: q :: qs).map CoordEvent.notify)
        = RootCoord.run (RootCoord.coordStep s (CoordEvent.notify p))
            ((q :: qs).map CoordEvent.notify) := rfl
      _ = _ := by rw [ih q]; simp [RootCoord.coordStep]

/-- C1 (amended): for every nonempty burst of notifications arriving within
one debounce window (no timer firing in between) followed by the timer
firing, exactly one extraction executes and no further timer is scheduled;
in the package variant the pending set handed to that execution is the
singleton holding the LAST notified path (each notification wipes the
previously pending ones via `clear()`), while in the root variant the
pending set is the union of all notified paths (the root variant, however,
only logs it — its extraction always runs over the full include set). -/
theorem debounce_single_execution_last_path (p : String) (ps : List String) :
    (PkgCoord.run initCoord
        ((p :: ps).map CoordEvent.notify ++ [CoordEvent.fire])).executions
      = [[(p :: ps).getLast (List.cons_ne_nil p ps)]] ∧
    (PkgCoord.run initCoord
        ((p :: ps).map CoordEvent.notify ++ [CoordEvent.fire])).timerScheduled
      = false ∧
    (RootCoord.run initCoord
        ((p :: ps).map CoordEvent.notify ++ [CoordEvent.fire])).executions
      = [(p :: ps).foldl addPending []] ∧
    (RootCoord.run initCoord
        ((p :: ps).map CoordEvent.notify ++ [CoordEvent.fire])).timerScheduled
      = false := by
  have hp : PkgCoord.run initCoord ((p :: ps).map CoordEvent.notify ++ [CoordEvent.fire])
      = PkgCoord.coordStep (PkgCoord.run initCoord ((p :: ps).map CoordEvent.notify))
          CoordEvent.fire := by
    simp [PkgCoord.run]
  have hr : RootCoord.run initCoord ((p :: ps).map CoordEvent.notify ++ [CoordEvent.fire])
      = RootCoord.coordStep (RootCoord.run initCoord ((p :: ps).map CoordEvent.notify))
          CoordEvent.fire := by
    simp [RootCoord.run]
  rw [hp, hr, pkgCoord_run_notifies p ps initCoord, rootCoord_run_notifies p ps initCoord]
  simp [PkgCoord.coordStep, RootCoord.coordStep, initCoord]

/-- C2 counterexample. Root variant: `notify A`, timer fires (run starts
over pending `\x7bA\x7d`), `notify B` during the run, the re-scheduled timer
fires DURING the run — the firing is discarded by the `inProgress` guard,
not re-scheduled — and the run completes, clearing the pending set. `B` is
never fed into any extraction and nothing remains scheduled. Package
variant: `notify B` during the run re-schedules, but completion clears the
pending set first, so the later firing executes an extraction over the EMPTY
set; `B` is again never fed into any extraction. -/
theorem inflight_fire_lost_cex :
    (RootCoord.run initCoord
        [.notify "src/A.tsx", .fire, .notify "src/B.tsx", .fire, .complete]) =
      { timerScheduled := false, inProgress := false, pendingExtract := [],
        running := 0, executions := [["src/A.tsx"]] } ∧
    ¬ "src/B.tsx" ∈ (RootCoord.run initCoord
        [.notify "src/A.tsx", .fire, .notify "src/B.tsx", .fire, .complete]).executions.flatten ∧
    (PkgCoord.run initCoord
        [.notify "src/A.tsx", .fire, .notify "src/B.tsx", .complete, .fire, .complete]).executions
      = [["src/A.tsx"], []] ∧
    ¬ "src/B.tsx" ∈ (PkgCoord.run initCoord
        [.notify "src/A.tsx", .fire, .notify "src/B.tsx", .complete, .fire, .complete]).executions.flatten := by
  decide

/-- C2 (amended): a debounce timer firing while the in-progress flag is set
is discarded, not re-scheduled: in both variants `debouncedExtract` returns
immediately, consuming the timer and starting no execution; combined with
run completion clearing the pending set, a path notified during an in-flight
run can be lost without ever being fed into an extraction. -/
theorem inflight_fire_dropped (s : CoordState) (h : s.inProgress = true) :
    RootCoord.coordStep s CoordEvent.fire = { s with timerScheduled := false } ∧
    PkgCoord.coordStep s CoordEvent.fire = { s with timerScheduled := false } ∧
    (RootCoord.coordStep s CoordEvent.fire).executions = s.executions ∧
    (PkgCoord.coordStep s CoordEvent.fire).executions = s.executions := by
  obtain ⟨t, ip, pe, r, ex⟩ := s
  subst h
  cases t <;> simp [RootCoord.coordStep, PkgCoord.coordStep]

/-- Witness for C2's amended theorem at a concrete in-flight state. -/
theorem inflight_fire_dropped_witness :
    RootCoord.coordStep
      { timerScheduled := true, inProgress := true,
        pendingExtract := ["src/B.tsx"], running := 1,
        executions := [["src/A.tsx"]] } CoordEvent.fire =
      { timerScheduled := false, inProgress := true,
        pendingExtract := ["src/B.tsx"], running := 1,
        executions := [["src/A.tsx"]] } ∧
    PkgCoord.coordStep
      { timerScheduled := true, inProgress := true,
        pendingExtract := ["src/B.tsx"], running := 1,
        executions := [["src/A.tsx"]] } CoordEvent.fire =
      { timerScheduled := false, inProgress := true,
        pendingExtract := ["src/B.tsx"], running := 1,
        executions := [["src/A.tsx"]] } ∧
    (RootCoord.coordStep
      { timerScheduled := true, inProgress := true,
        pendingExtract := ["src/B.tsx"], running := 1,
        executions := [["src/A.tsx"]] } CoordEvent.fire).executions
      = [["src/A.tsx"]] ∧
    (PkgCoord.coordStep
      { timerScheduled := true, inProgress := true,
        pendingExtract := ["src/B.tsx"], running := 1,
        executions := [["src/A.tsx"]] } CoordEvent.fire).executions
      = [["src/A.tsx"]] :=
  inflight_fire_dropped
    { timerScheduled := true, inProgress := true,
      pendingExtract := ["src/B.tsx"], running := 1,
      executions := [["src/A.tsx"]] } rfl

/-- C9: when an in-flight extraction run finishes — successfully or not (the
`catch` only logs; the `finally` always runs) — both coordinators reset the
in-progress flag to `false` and empty the pending set, and a subsequent
trigger (`notify` then the timer firing) starts a fresh extraction over the
newly notified path, unaffected by the earlier failure. -/
theorem completion_resets_state (s : CoordState) (h : 0 < s.running) (p : String) :
    ((RootCoord.coordStep s CoordEvent.complete).inProgress = false ∧
     (RootCoord.coordStep s CoordEvent.complete).pendingExtract = [] ∧
     (RootCoord.run (RootCoord.coordStep s CoordEvent.complete)
        [.notify p, .fire]).executions = s.executions ++ [[p]]) ∧
    ((PkgCoord.coordStep s CoordEvent.complete).inProgress = false ∧
     (PkgCoord.coordStep s CoordEvent.complete).pendingExtract = [] ∧
     (PkgCoord.run (PkgCoord.coordStep s CoordEvent.complete)
        [.notify p, .fire]).executions = s.executions ++ [[p]]) := by
  obtain ⟨t, ip, pe, r, ex⟩ := s
  have hr : r ≠ 0 := Nat.pos_iff_ne_zero.mp h
  simp [RootCoord.coordStep, PkgCoord.coordStep, RootCoord.run, PkgCoord.run,
    PkgCoord.clearFn, addPending, hr]

/-- Witness for C9 at a concrete in-flight state. -/
theorem completion_resets_state_witness :
    ((RootCoord.coordStep
        { timerScheduled := false, inProgress := true,
          pendingExtract := ["src/B.tsx"], running := 1,
          executions := [["src/A.tsx"]] } CoordEvent.complete).inProgress = false ∧
     (RootCoord.coordStep
        { timerScheduled := false, inProgress := true,
          pendingExtract := ["src/B.tsx"], running := 1,
          executions := [["src/A.tsx"]] } CoordEvent.complete).pendingExtract = [] ∧
     (RootCoord.run (RootCoord.coordStep
        { timerScheduled := false, inProgress := true,
          pendingExtract := ["src/B.tsx"], running := 1,
          executions := [["src/A.tsx"]] } CoordEvent.complete)
        [.notify "src/C.tsx", .fire]).executions
        = [["src/A.tsx"]] ++ [["src/C.tsx"]]) ∧
    ((PkgCoord.coordStep
        { timerScheduled := false, inProgress := true,
          pendingExtract := ["src/B.tsx"], running := 1,
          executions := [["src/A.tsx"]] } CoordEvent.complete).inProgress = false ∧
     (PkgCoord.coordStep
        { timerScheduled := false, inProgress := true,
          pendingExtract := ["src/B.tsx"], running := 1,
          executions := [["src/A.tsx"]] } CoordEvent.complete).pendingExtract = [] ∧
     (PkgCoord.run (PkgCoord.coordStep
        { timerScheduled := false, inProgress := true,
          pendingExtract := ["src/B.tsx"], running := 1,
          executions := [["src/A.tsx"]] } CoordEvent.complete)
        [.notify "src/C.tsx", .fire]).executions
        = [["src/A.tsx"]] ++ [["src/C.tsx"]]) :=
  completion_resets_state
    { timerScheduled := false, inProgress := true,
      pendingExtract := ["src/B.tsx"], running := 1,
      executions := [["src/A.tsx"]] } (by decide) "src/C.tsx"

/-- C4: for every incremental extraction that writes (both cited
implementations: `MessageExtractor.extractIncremental` and the package
module's `extractMessage`), the written map is the object spread of the
existing on-disk map under the newly extracted map: every key absent from
the new map keeps its existing binding (messages of untouched files are
preserved), and every key present in the new map takes the new value. -/
theorem incremental_merge_preserves_and_overrides :
    (∀ (options : Root.FormatJSPluginOptions) (relFn : String → String)
       (minimatchFn : String → String → Bool)
       (extractOracle : List String → Messages)
       (onDisk : String → Option Messages) (changedFiles : List String)
       (f : String) (w existing : Messages),
       options.outFile = some f →
       onDisk f = some existing →
       (Extractor.extractIncremental options relFn minimatchFn extractOracle
          onDisk changedFiles).written = some (f, w) →
       (∀ k, extractOracle (Extractor.filterRelevantFiles
            (options.includePatterns.getD []) relFn minimatchFn changedFiles) k
            = none → w k = existing k) ∧
       (∀ k v, extractOracle (Extractor.filterRelevantFiles
            (options.includePatterns.getD []) relFn minimatchFn changedFiles) k
            = some v → w k = some v)) ∧
    (∀ (extractOracle : List String → Messages)
       (readOutFile : String → Option Messages) (options : ExtractOptions)
       (files : List String) (f : String) (w existing : Messages),
       options.outFile = some f →
       readOutFile f = some existing →
       Pkg.extractMessage extractOracle readOutFile options files = .ok (f, w) →
       (∀ k, extractOracle files k = none → w k = existing k) ∧
       (∀ k v, extractOracle files k = some v → w k = some v)) := by
  constructor
  · intro options relFn minimatchFn extractOracle onDisk changedFiles f w existing
      hout hdisk hw
    simp only [Extractor.extractIncremental] at hw
    split_ifs at hw with h1 h2
    simp only [hout, Option.map_some', Option.some.injEq, Prod.mk.injEq,
      true_and, and_true] at hw
    subst hw
    refine ⟨fun k hk => ?_, fun k v hk => ?_⟩
    · simp [spreadMerge, hk, hout, Extractor.readExistingMessages, hdisk]
    · simp [spreadMerge, hk]
  · intro extractOracle readOutFile options files f w existing hout hdisk hok
    simp only [Pkg.extractMessage, hout, hdisk] at hok
    simp only [Except.ok.injEq, Prod.mk.injEq] at hok
    obtain ⟨-, hok⟩ := hok
    subst hok
    refine ⟨fun k hk => ?_, fun k v hk => ?_⟩
    · simp [spreadMerge, hk]
    · simp [spreadMerge, hk]

/-- Existing on-disk map for concrete runs: key `a` holds a stale value,
key `b` a value belonging to an untouched file. -/
def demoExisting : Messages := fun k =>
  if k = "a" then some "old" else if k = "b" then some "keep" else none

/-- Newly extracted map for concrete runs: only key `a`, with a new value. -/
def demoNew : Messages := fun k => if k = "a" then some "new" else none

/-- Extraction oracle returning `demoNew` for any file set. -/
def demoOracle : List String → Messages := fun _ => demoNew

/-- On-disk read oracle returning `demoExisting` for any path. -/
def demoOnDisk : String → Option Messages := fun _ => some demoExisting

/-- Witness for C4 at concrete inputs: incremental extraction over one
changed file preserves untouched key `b` and overrides key `a` with the new
value, in both cited implementations. -/
theorem incremental_merge_witness :
    (spreadMerge demoExisting demoNew) "b" = demoExisting "b" ∧
    (spreadMerge demoExisting demoNew) "a" = some "new" ∧
    (spreadMerge demoExisting demoNew) "b" = some "keep" := by
  have h1 := incremental_merge_preserves_and_overrides.1 sampleRootOptions
    (fun x => x) (fun _ _ => true) demoOracle demoOnDisk ["src/A.tsx"]
    "src/i18n/lang/en.json" (spreadMerge demoExisting demoNew) demoExisting
    rfl rfl rfl
  have h2 := incremental_merge_preserves_and_overrides.2 demoOracle demoOnDisk
    { includePatterns := some ["src/**"], ignore := none,
      outFile := some "lang/en.json" }
    ["src/A.tsx"] "lang/en.json" (spreadMerge demoExisting demoNew)
    demoExisting rfl rfl rfl
  refine ⟨h1.1 "b" rfl, h2.2 "a" "new" rfl, (h1.1 "b" rfl).trans rfl⟩

/-! ## Helper lemmas on `exceptTraverse` and the compile stage -/

/-- A successful `Root.compileMessageFile` always carries `success = true`. -/
theorem rootCompile_ok_success (fileExists : String → Bool)
    (compileFn : String → Except String String)
    (o : Root.FormatJSPluginOptions) (mf : String) (res : SingleCompileResult)
    (h : Root.compileMessageFile fileExists compileFn o mf = .ok res) :
    res.success = true := by
  simp only [Root.compileMessageFile] at h
  cases hg : Root.generateOutputPath mf o with
  | error e => simp only [hg] at h; exact Except.noConfusion h
  | ok outF =>
    simp only [hg] at h
    split_ifs at h
    cases hc : compileFn mf with
    | error e => simp only [hc] at h; exact Except.noConfusion h
    | ok c =>
      simp only [hc, Except.ok.injEq] at h
      subst h
      rfl

/-- Members of a successful traversal come from successes of `f`. -/
theorem exceptTraverse_ok_mem (f : α → Except ε β) :
    ∀ (l : List α) (ys : List β), exceptTraverse f l = .ok ys →
      ∀ y ∈ ys, ∃ x ∈ l, f x = .ok y := by
  intro l
  induction l with
  | nil =>
    intro ys h y hy
    simp only [exceptTraverse, Except.ok.injEq] at h
    subst h
    simp at hy
  | cons x xs ih =>
    intro ys h y hy
    simp only [exceptTraverse] at h
    cases hfx : f x with
    | error e => rw [hfx] at h; exact Except.noConfusion h
    | ok b =>
      rw [hfx] at h
      cases ht : exceptTraverse f xs with
      | error e => rw [ht] at h; exact Except.noConfusion h
      | ok bs =>
        rw [ht] at h
        simp only [Except.ok.injEq] at h
        subst h
        rcases List.mem_cons.mp hy with hy | hy
        · exact ⟨x, List.mem_cons_self x xs, hy ▸ hfx⟩
        · obtain ⟨x', hx', hfx'⟩ := ih bs ht y hy
          exact ⟨x', List.mem_cons_of_mem x hx', hfx'⟩

/-- If some element of the list fails, the whole traversal fails
(`Promise.all` rejects). -/
theorem exceptTraverse_error_of_mem (f : α → Except ε β) (l : List α) (x : α)
    (hx : x ∈ l) (hfx : exceptIsOk (f x) = false) :
    exceptIsOk (exceptTraverse f l) = false := by
  induction l with
  | nil => simp at hx
  | cons a as ih =>
    simp only [exceptTraverse]
    cases hfa : f a with
    | error e => simp [exceptIsOk]
    | ok b =>
      rcases List.mem_cons.mp hx with h | h
      · subst h; rw [hfa] at hfx; simp [exceptIsOk] at hfx
      · have hrec := ih h
        cases ht : exceptTraverse f as with
        | error e => simp [exceptIsOk]
        | ok bs => rw [ht] at hrec; simp [exceptIsOk] at hrec

/-! ## Concrete batch-compilation data (three locale files, the second
failing to compile) -/

/-- Filesystem with a `lang` directory holding three locale files. -/
def c6fs : FS :=
  { readdir := fun d =>
      if d = "lang" then some ["de.json", "fr.json", "es.json"] else none,
    readFile := fun _ => some "RAW",
    parsesAsJson := fun _ => true }

/-- External compile call failing exactly on the second locale file. -/
def c6failCompile : String → Except String String := fun f =>
  if f = "lang/fr.json" then .error "compile failed" else .ok "COMPILED"

/-- External compile call succeeding on every file. -/
def c6okCompile : String → Except String String := fun _ => .ok "COMPILED"

/-- Root-variant options for the batch: canonical file `lang/en.json`,
output folder `compiled`. -/
def c6options : Root.FormatJSPluginOptions :=
  { includePatterns := some ["src/**"], ignore := none,
    outFile := some "lang/en.json", compileFolder := some "compiled" }

/-- C6 counterexample: three locale files where compiling the second throws.
`compileMessages` does NOT return outcomes for the first and third — the
`Promise.all` rejection propagates through the rethrowing catch and the
whole batch returns the error, with no outcomes at all. -/
theorem batch_aborts_cex :
    Root.compileMessages c6fs (fun _ => true) c6failCompile c6options
      = .error "compile failed" ∧
    exceptIsOk (Pkg.compileMessages c6fs c6failCompile
      { inputDir := "lang", outputDir := "compiled" }) = false := by
  constructor
  · rfl
  · rfl

/-- C6 (amended): a failure while compiling one file does not yield a
`success = false` outcome inside the batch result — in the root variant
`compileMessageFile` throws and `compileMessages` propagates the
`Promise.all` rejection, so the whole batch throws and returns no outcomes;
when the batch does return, every outcome has `success = true`. The
non-throwing failure handling (return a `0` duration instead of throwing)
exists only in the package variant's single-file `compileMessageFile`, the
hot-update path. -/
theorem compileMessages_failure_isolation :
    (∀ (fs : FS) (fileExists : String → Bool)
       (compileFn : String → Except String String)
       (o : Root.FormatJSPluginOptions) (r : CompileResult),
       Root.compileMessages fs fileExists compileFn o = .ok r →
       ∀ res ∈ r.results, res.success = true) ∧
    (∀ (fs : FS) (fileExists : String → Bool)
       (compileFn : String → Except String String)
       (o : Root.FormatJSPluginOptions) (folder outF : String)
       (files : List String) (x : String),
       o.compileFolder = some folder → o.outFile = some outF →
       Root.findMessageFiles fs (pathDirname outF) o = .ok files →
       x ∈ files →
       exceptIsOk (Root.compileMessageFile fileExists compileFn o x) = false →
       exceptIsOk (Root.compileMessages fs fileExists compileFn o) = false) ∧
    (∀ (fileExists : String → Bool) (compileFn : String → Except String String)
       (elapsed : Nat) (o : CompileOptions) (mf : String),
       fileExists mf = false ∨ (∃ e, compileFn mf = .error e) →
       Pkg.compileMessageFile fileExists compileFn elapsed o mf = 0) := by
  refine ⟨?_, ?_, ?_⟩
  · intro fs fileExists compileFn o r h res hres
    simp only [Root.compileMessages] at h
    cases hf : o.compileFolder with
    | none => simp only [hf] at h; exact Except.noConfusion h
    | some folder =>
      simp only [hf] at h
      cases ho : o.outFile with
      | none => simp only [ho] at h; exact Except.noConfusion h
      | some outF =>
        simp only [ho] at h
        cases hfind : Root.findMessageFiles fs (pathDirname outF) o with
        | error e => simp only [hfind] at h; exact Except.noConfusion h
        | ok files =>
          simp only [hfind] at h
          split_ifs at h with hemp
          · simp only [Except.ok.injEq] at h
            subst h
            simp at hres
          · cases ht : exceptTraverse
                (Root.compileMessageFile fileExists compileFn o) files with
            | error e => simp only [ht] at h; exact Except.noConfusion h
            | ok results =>
              simp only [ht, Except.ok.injEq] at h
              subst h
              obtain ⟨x, -, hx⟩ := exceptTraverse_ok_mem
                (Root.compileMessageFile fileExists compileFn o) files results
                ht res hres
              exact rootCompile_ok_success fileExists compileFn o x res hx
  · intro fs fileExists compileFn o folder outF files x hf ho hfind hx hfail
    simp only [Root.compileMessages, hf, ho, hfind]
    have hne : files.isEmpty = false := by
      cases files with
      | nil => simp at hx
      | cons a as => rfl
    rw [hne]
    simp only [Bool.false_eq_true, if_false]
    have := exceptTraverse_error_of_mem
      (Root.compileMessageFile fileExists compileFn o) files x hx hfail
    cases ht : exceptTraverse
        (Root.compileMessageFile fileExists compileFn o) files with
    | error e => rfl
    | ok results => rw [ht] at this; simp [exceptIsOk] at this
  · intro fileExists compileFn elapsed o mf h
    rcases h with h | ⟨e, h⟩
    · simp [Pkg.compileMessageFile, h]
    · simp [Pkg.compileMessageFile, h]

/-- Witness for C6's amended theorem at concrete inputs: a fully successful
batch yields a `success = true` outcome for `lang/de.json`; the batch with
the failing second file returns an error; the package single-file path
returns `0` for the failing file. -/
theorem compileMessages_failure_isolation_witness :
    ({ messageFile := "lang/de.json", outFile := "compiled/de.json",
       duration := 0, success := true } : SingleCompileResult).success = true ∧
    exceptIsOk (Root.compileMessages c6fs (fun _ => true) c6failCompile
      c6options) = false ∧
    Pkg.compileMessageFile (fun _ => true) c6failCompile 5
      { inputDir := "lang", outputDir := "compiled" } "lang/fr.json" = 0 := by
  refine ⟨?_, ?_, ?_⟩
  · exact compileMessages_failure_isolation.1 c6fs (fun _ => true) c6okCompile
      c6options
      { results :=
          [{ messageFile := "lang/de.json", outFile := "compiled/de.json",
             duration := 0, success := true },
           { messageFile := "lang/fr.json", outFile := "compiled/fr.json",
             duration := 0, success := true },
           { messageFile := "lang/es.json", outFile := "compiled/es.json",
             duration := 0, success := true }],
        duration := 0, compiledCount := 3 }
      rfl
      { messageFile := "lang/de.json", outFile := "compiled/de.json",
        duration := 0, success := true }
      (by decide)
  · exact compileMessages_failure_isolation.2.1 c6fs (fun _ => true)
      c6failCompile c6options "compiled" "lang/en.json"
      ["lang/de.json", "lang/fr.json", "lang/es.json"] "lang/fr.json"
      rfl rfl rfl (by decide) rfl
  · exact compileMessages_failure_isolation.2.2 (fun _ => true) c6failCompile
      5 { inputDir := "lang", outputDir := "compiled" } "lang/fr.json"
      (Or.inr ⟨"compile failed", rfl⟩)

/-! ## C7: candidate enumeration -/

/-- The per-entry candidate function of the root `findMessageFiles` yields
`some p` exactly for `.json` entries distinct from `basename(outFile)` whose
content reads and parses as JSON, with `p` the joined path. -/
theorem rootCandidate_some_iff (fs : FS) (dir : String)
    (opts : Root.FormatJSPluginOptions) (file p : String) :
    ((if strEndsWith file ".json" && file != pathBasename (opts.outFile.getD "") then
        match fs.readFile (pathJoin dir file) with
        | none => none
        | some content =>
          if fs.parsesAsJson content then some (pathJoin dir file) else none
      else none) = some p) ↔
      (p = pathJoin dir file ∧ strEndsWith file ".json" = true ∧
       file ≠ pathBasename (opts.outFile.getD "") ∧
       ∃ c, fs.readFile (pathJoin dir file) = some c ∧
         fs.parsesAsJson c = true) := by
  split_ifs with h
  · rw [Bool.and_eq_true, bne_iff_ne] at h
    obtain ⟨hj, hb⟩ := h
    cases hr : fs.readFile (pathJoin dir file) with
    | none =>
      simp only [hr]
      constructor
      · intro hx; cases hx
      · rintro ⟨-, -, -, c, hc, -⟩; cases hc
    | some c =>
      simp only [hr]
      by_cases hp : fs.parsesAsJson c = true
      · rw [if_pos hp]
        constructor
        · intro hx
          exact ⟨(Option.some.inj hx).symm, hj, hb, c, rfl, hp⟩
        · rintro ⟨hp2, -, -, -⟩; rw [hp2]
      · rw [if_neg hp]
        constructor
        · intro hx; cases hx
        · rintro ⟨-, -, -, c', hc', hp'⟩
          cases Option.some.inj hc'
          exact absurd hp' hp
  · rw [Bool.and_eq_true, bne_iff_ne] at h
    constructor
    · intro hx; cases hx
    · rintro ⟨-, hj, hb, -⟩; exact absurd ⟨hj, hb⟩ h

/-- The per-entry candidate function of the package `findMessageFiles`: as
the root one but with no exclusion of `basename(outFile)`. -/
theorem pkgCandidate_some_iff (fs : FS) (dir : String) (file p : String) :
    ((if strEndsWith file ".json" then
        match fs.readFile (pathJoin dir file) with
        | none => none
        | some content =>
          if fs.parsesAsJson content then some (pathJoin dir file) else none
      else none) = some p) ↔
      (p = pathJoin dir file ∧ strEndsWith file ".json" = true ∧
       ∃ c, fs.readFile (pathJoin dir file) = some c ∧
         fs.parsesAsJson c = true) := by
  split_ifs with h
  · cases hr : fs.readFile (pathJoin dir file) with
    | none =>
      simp only [hr]
      constructor
      · intro hx; cases hx
      · rintro ⟨-, -, c, hc, -⟩; cases hc
    | some c =>
      simp only [hr]
      by_cases hp : fs.parsesAsJson c = true
      · rw [if_pos hp]
        constructor
        · intro hx
          exact ⟨(Option.some.inj hx).symm, h, c, rfl, hp⟩
        · rintro ⟨hp2, -, -⟩; rw [hp2]
      · rw [if_neg hp]
        constructor
        · intro hx; cases hx
        · rintro ⟨-, -, c', hc', hp'⟩
          cases Option.some.inj hc'
          exact absurd hp' hp
  · constructor
    · intro hx; cases hx
    · rintro ⟨-, hj, -⟩; exact absurd hj h

/-- Filesystem whose `src/i18n/lang` directory holds `en.json` (the
canonical out file) and `zh.json`, both valid JSON. -/
def c7fs : FS :=
  { readdir := fun d =>
      if d = "src/i18n/lang" then some ["en.json", "zh.json"] else none,
    readFile := fun _ => some "RAW-JSON",
    parsesAsJson := fun _ => true }

/-- C7 counterexample: in the package variant the candidate set is NOT
restricted to basenames differing from the canonical `outFile`'s —
`findMessageFiles` returns `inputDir/en.json` even though `en.json` is
exactly `basename(outFile)` of the configuration. -/
theorem findMessageFiles_outFile_included_cex :
    Pkg.findMessageFiles c7fs sampleConfig.compile
      = .ok ["src/i18n/lang/en.json", "src/i18n/lang/zh.json"] ∧
    pathBasename "src/i18n/lang/en.json"
      = pathBasename (sampleConfig.extract.outFile.getD "") := by
  constructor
  · rfl
  · rfl

/-- C7 (amended): a `readdir` failure on the message directory makes both
variants throw; given a successful listing, the root variant's candidate set
holds exactly the joined paths of listing entries that end in `.json`, parse
as JSON (read or parse failure silently skips) and differ from
`basename(outFile)` — while the package variant's candidate set applies the
same conditions WITHOUT the basename exclusion, so the canonical `outFile`
itself is a candidate there. -/
theorem findMessageFiles_candidates :
    (∀ (fs : FS) (dir : String) (opts : Root.FormatJSPluginOptions)
       (files : List String), fs.readdir dir = some files →
       ∃ res, Root.findMessageFiles fs dir opts = .ok res ∧
         ∀ p, p ∈ res ↔ ∃ file, file ∈ files ∧ p = pathJoin dir file ∧
           strEndsWith file ".json" = true ∧
           file ≠ pathBasename (opts.outFile.getD "") ∧
           ∃ c, fs.readFile (pathJoin dir file) = some c ∧
             fs.parsesAsJson c = true) ∧
    (∀ (fs : FS) (dir : String) (opts : Root.FormatJSPluginOptions),
       fs.readdir dir = none →
       exceptIsOk (Root.findMessageFiles fs dir opts) = false) ∧
    (∀ (fs : FS) (opts : CompileOptions) (files : List String),
       fs.readdir opts.inputDir = some files →
       ∃ res, Pkg.findMessageFiles fs opts = .ok res ∧
         ∀ p, p ∈ res ↔ ∃ file, file ∈ files ∧
           p = pathJoin opts.inputDir file ∧
           strEndsWith file ".json" = true ∧
           ∃ c, fs.readFile (pathJoin opts.inputDir file) = some c ∧
             fs.parsesAsJson c = true) ∧
    (∀ (fs : FS) (opts : CompileOptions), fs.readdir opts.inputDir = none →
       exceptIsOk (Pkg.findMessageFiles fs opts) = false) := by
  refine ⟨?_, ?_, ?_, ?_⟩
  · intro fs dir opts files h
    simp only [Root.findMessageFiles, h]
    refine ⟨_, rfl, ?_⟩
    intro p
    rw [List.mem_filterMap]
    constructor
    · rintro ⟨file, hfile, hsome⟩
      exact ⟨file, hfile, (rootCandidate_some_iff fs dir opts file p).mp hsome⟩
    · rintro ⟨file, hfile, hrest⟩
      exact ⟨file, hfile, (rootCandidate_some_iff fs dir opts file p).mpr hrest⟩
  · intro fs dir opts h
    simp only [Root.findMessageFiles, h]
    rfl
  · intro fs opts files h
    simp only [Pkg.findMessageFiles, h]
    refine ⟨_, rfl, ?_⟩
    intro p
    rw [List.mem_filterMap]
    constructor
    · rintro ⟨file, hfile, hsome⟩
      exact ⟨file, hfile,
        (pkgCandidate_some_iff fs opts.inputDir file p).mp hsome⟩
    · rintro ⟨file, hfile, hrest⟩
      exact ⟨file, hfile,
        (pkgCandidate_some_iff fs opts.inputDir file p).mpr hrest⟩
  · intro fs opts h
    simp only [Pkg.findMessageFiles, h]
    rfl

/-- Witness for C7's amended theorem at concrete inputs: the root
characterization applied to the `lang` listing shows `lang/de.json` is a
candidate while `lang/en.json` (the canonical file) is not; the failure
cases are exercised on a filesystem whose `readdir` rejects; the package
characterization shows `en.json` IS a candidate there. -/
theorem findMessageFiles_candidates_witness :
    (∃ res, Root.findMessageFiles c6fs "lang" c6options = .ok res ∧
       "lang/de.json" ∈ res ∧ ¬ "lang/en.json" ∈ res) ∧
    exceptIsOk (Root.findMessageFiles c6fs "nodir" c6options) = false ∧
    exceptIsOk (Pkg.findMessageFiles c6fs
      { inputDir := "nodir", outputDir := "compiled" }) = false ∧
    (∃ res2, Pkg.findMessageFiles c7fs sampleConfig.compile = .ok res2 ∧
       "src/i18n/lang/en.json" ∈ res2) := by
  obtain ⟨res, hres, hiff⟩ :=
    findMessageFiles_candidates.1 c6fs "lang" c6options
      ["de.json", "fr.json", "es.json"] rfl
  obtain ⟨res2, hres2, hiff2⟩ :=
    findMessageFiles_candidates.2.2.1 c7fs sampleConfig.compile
      ["en.json", "zh.json"] rfl
  refine ⟨⟨res, hres, ?_, ?_⟩,
    findMessageFiles_candidates.2.1 c6fs "nodir" c6options rfl,
    findMessageFiles_candidates.2.2.2 c6fs
      { inputDir := "nodir", outputDir := "compiled" } rfl,
    ⟨res2, hres2, ?_⟩⟩
  · exact (hiff "lang/de.json").mpr
      ⟨"de.json", by decide, rfl, rfl, by decide, "RAW", rfl, rfl⟩
  · intro hmem
    obtain ⟨file, hfile, hjoin, -, hneq, -⟩ := (hiff "lang/en.json").mp hmem
    fin_cases hfile <;> revert hjoin hneq <;> decide
  · exact (hiff2 "src/i18n/lang/en.json").mpr
      ⟨"en.json", by decide, rfl, rfl, "RAW-JSON", rfl, rfl⟩

end VPF
